import Mathlib

/-!
# Rewards Token Service — embedding and verification

Shallow embedding of `src/main.py` (FastAPI "Rewards Token Service"):
token issuance (`_generate_code`, `_ensure_unique_code`, `generate_tokens`),
listing/lookup (`list_tokens`, `get_token`) and redemption (`redeem_token`)
over a Mongo-style document store, modelled as a list of documents.

Modelling conventions:
* Timestamps (`datetime`) are integers (microseconds since the epoch); the
  "current UTC time" of a request is an explicit `now` parameter.
* A Mongo document's field that is absent **or** null is `none`; `d.get(k)`
  is `Option.getD`.  The Mongo `_id` is a `Nat` field `id`.
* The random source `secrets.choice(alphabet)` is an explicit oracle
  `choice : Nat → Fin 36` (one alphabet index per drawn character), threaded
  by position, so each call consumes fresh indices.
* The monetary `value` (a Python float used as inert data) is a `Rat`.
* `db["token"].find_one(q)` is `List.find?` (first match); `update_one`
  updates the first match only.
-/

/-- Timestamps: microseconds since the epoch (models `datetime` in UTC). -/
abbrev Timestamp := Int

/-- A stored document of the `token` collection.  `none` models an absent
(or null) field; `id` models the Mongo `_id`. -/
structure TokenDoc where
  id : Nat
  code : String
  value : Option Rat
  currency : Option String
  purpose : Option String
  expires_at : Option Timestamp
  redeemed : Option Bool
  redeemed_by : Option String
  redeemed_at : Option Timestamp
  created_at : Option Timestamp
  updated_at : Option Timestamp
deriving DecidableEq, Repr

/-- The `token` collection: a list of documents, in insertion order. -/
abbrev Store := List TokenDoc

/-- The `TokenPublic` pydantic response model of `src/main.py` lines 39-48. -/
structure TokenPublic where
  code : String
  value : Rat
  currency : String
  purpose : Option String
  expires_at : Option Timestamp
  redeemed : Bool
  redeemed_by : Option String
  redeemed_at : Option Timestamp
  created_at : Option Timestamp
deriving DecidableEq, Repr

/-- The error taxonomy raised by the handlers (`HTTPException`s):
`notFound` = 404 "Invalid token code" / "Token not found",
`alreadyRedeemed` = 400 "Token already redeemed",
`expired` = 400 "Token has expired",
`uniqueCodeExhausted` = 500 "Could not generate a unique token code",
`readbackMissing` = the crash the Python would raise if the re-fetch by
`_id` after an update returned nothing (unreachable in a sequential run). -/
inductive ApiError where
  | notFound
  | alreadyRedeemed
  | expired
  | uniqueCodeExhausted
  | readbackMissing
deriving DecidableEq, Repr

/-- Building a `TokenPublic` from a stored document with schema-on-read
defaults, exactly as `get_token` (lines 181-191) and `list_tokens`
(lines 160-170) do: `doc.get("value", 0)`, `doc.get("currency", "USD")`,
`doc.get("redeemed", False)`, plain `doc.get(...)` for the rest. -/
def tokenPublicOfDoc (d : TokenDoc) : TokenPublic :=
  { code := d.code
    value := d.value.getD 0
    currency := d.currency.getD "USD"
    purpose := d.purpose
    expires_at := d.expires_at
    redeemed := d.redeemed.getD false
    redeemed_by := d.redeemed_by
    redeemed_at := d.redeemed_at
    created_at := d.created_at }

/-! ## Code generation (`src/main.py` lines 98-113) -/

/-- The alphabet `string.ascii_uppercase + string.digits` (line 99). -/
def alphabet : List Char := "ABCDEFGHIJKLMNOPQRSTUVWXYZ0123456789".toList

theorem alphabet_length : alphabet.length = 36 := rfl

/-- Model of `_generate_code(length)` (lines 98-100): draw `length` characters from
`alphabet`; the draws are the oracle values `choice 0, …, choice (length-1)`. -/
def _generate_code (choice : Nat → Fin 36) (length : Nat) : String :=
  ⟨(List.range length).map fun i => alphabet.get (Fin.cast alphabet_length.symm (choice i))⟩

/-- Model of `db["token"].find_one({"code": code}) is not None`. -/
def codeExists (store : Store) (code : String) : Bool :=
  (store.find? fun d => d.code == code).isSome

/-- One candidate code: the prefix (if any, prepended verbatim as in
`f"{prefix}{code}"`, line 108) followed by the freshly generated part. -/
def withPfx (pfx : Option String) (raw : String) : String :=
  match pfx with
  | some s => s ++ raw
  | none => raw

/-- The `while attempts < 10` loop body of `_ensure_unique_code`
(lines 104-112), with the remaining attempts as fuel and the oracle
position threaded (each attempt consumes `length` draws). -/
def ensureUniqueAux (store : Store) (length : Nat) (pfx : Option String)
    (choice : Nat → Fin 36) : Nat → Nat → Except ApiError (String × Nat)
  | _, 0 => .error .uniqueCodeExhausted
  | pos, fuel + 1 =>
    let code := withPfx pfx (_generate_code (fun j => choice (pos + j)) length)
    if codeExists store code then
      ensureUniqueAux store length pfx choice (pos + length) fuel
    else
      .ok (code, pos + length)

/-- Model of `_ensure_unique_code(length, prefix)` (lines 103-113): up to 10 attempts,
then `HTTPException(500, "Could not generate a unique token code...")`.
Returns the fresh code and the new oracle position. -/
def _ensure_unique_code (store : Store) (length : Nat) (pfx : Option String)
    (choice : Nat → Fin 36) (pos : Nat) : Except ApiError (String × Nat) :=
  ensureUniqueAux store length pfx choice pos 10

/-- The candidate the `i`-th attempt of `_ensure_unique_code` tests when
the loop starts at oracle position `pos`. -/
def candidateCode (length : Nat) (pfx : Option String) (choice : Nat → Fin 36)
    (pos i : Nat) : String :=
  withPfx pfx (_generate_code (fun j => choice (pos + i * length + j)) length)

/-! ## Issuance (`src/main.py` lines 118-138) -/

/-- The validated body of `POST /api/tokens/generate` (lines 24-31).
Pydantic bounds (`count` in [1,500], `value ≥ 0`, `length` in [6,32],
`currency` length in [1,6]) are hypotheses of the theorems, since FastAPI
rejects out-of-range bodies before the handler runs.  The `prefix` field is
named `pfx` here. -/
structure GenerateTokensRequest where
  count : Nat
  value : Rat
  currency : String
  purpose : Option String
  expires_at : Option Timestamp
  length : Nat
  pfx : Option String

/-- Modelled from the spec: `create_document` comes from the repository's
`database` module, which is not under `src/`.  Per the spec it persists one
document into the collection and assigns the server timestamps
`created_at`/`updated_at` (and a fresh `_id`); the caller observes the
document with those fields set.  Returns the stored document and the new
store. -/
def create_document (store : Store) (d : TokenDoc) (now : Timestamp) :
    TokenDoc × Store :=
  let stored := { d with id := store.length, created_at := some now, updated_at := some now }
  (stored, store ++ [stored])

/-- The `for _ in range(payload.count)` loop of `generate_tokens`
(lines 123-137): generate a unique code, build the document dict
(lines 126-135, `redeemed=False`, `redeemed_by=None`, `redeemed_at=None`),
persist it, and append its public view to `created`.  On a
unique-code failure the exception propagates, leaving the store as is. -/
def generateLoop (payload : GenerateTokensRequest) (choice : Nat → Fin 36)
    (now : Timestamp) : Nat → Store → Nat → Except ApiError (List TokenPublic) × Store
  | 0, store, _ => (.ok [], store)
  | n + 1, store, pos =>
    match _ensure_unique_code store payload.length payload.pfx choice pos with
    | .error e => (.error e, store)
    | .ok (code, pos') =>
      let doc : TokenDoc :=
        { id := 0
          code := code
          value := some payload.value
          currency := some payload.currency
          purpose := payload.purpose
          expires_at := payload.expires_at
          redeemed := some false
          redeemed_by := none
          redeemed_at := none
          created_at := none
          updated_at := none }
      let res := create_document store doc now
      match generateLoop payload choice now n res.2 pos' with
      | (.ok rest, store') => (.ok (tokenPublicOfDoc res.1 :: rest), store')
      | (.error e, store') => (.error e, store')

/-- Handler of `POST /api/tokens/generate` (lines 118-138). -/
def generate_tokens (store : Store) (payload : GenerateTokensRequest)
    (choice : Nat → Fin 36) (now : Timestamp) :
    Except ApiError (List TokenPublic) × Store :=
  generateLoop payload choice now payload.count store 0

/-! ## Listing and lookup (`src/main.py` lines 141-191) -/

/-- Mongo sort-key comparison for `created_at` values: an absent or null
key sorts below every concrete timestamp. -/
def keyLe (a b : Option Timestamp) : Bool :=
  match a, b with
  | none, _ => true
  | some _, none => false
  | some x, some y => decide (x ≤ y)

/-- Document `a` may precede `b` in the `.sort("created_at", -1)` (descending)
order: `b`'s key is at most `a`'s. -/
def docBefore (a b : TokenDoc) : Prop := keyLe b.created_at a.created_at = true

instance : DecidableRel docBefore := fun a b => by
  unfold docBefore; infer_instance

theorem keyLe_total (a b : Option Timestamp) : keyLe a b = true ∨ keyLe b a = true := by
  cases a <;> cases b <;> simp [keyLe]
  exact Int.le_total _ _

theorem keyLe_trans (a b c : Option Timestamp) (hab : keyLe a b = true)
    (hbc : keyLe b c = true) : keyLe a c = true := by
  cases a <;> cases b <;> cases c <;> simp_all [keyLe]
  exact Int.le_trans hab hbc

instance : IsTotal TokenDoc docBefore :=
  ⟨fun a b => keyLe_total b.created_at a.created_at⟩

instance : IsTrans TokenDoc docBefore :=
  ⟨fun a b c hab hbc => keyLe_trans c.created_at b.created_at a.created_at hbc hab⟩

/-- The `only_active` Mongo query (lines 148-155): `redeemed` equals `False`
(an absent `redeemed` field does not match), and `expires_at` is `> now`,
or absent, or null. -/
def activeQuery (now : Timestamp) (d : TokenDoc) : Bool :=
  (d.redeemed == some false) &&
    (match d.expires_at with
     | some e => decide (now < e)
     | none => true)

/-- Handler of `GET /api/tokens` (lines 141-171): filter, sort by `created_at`
descending, `limit(max(1, min(limit, 500)))`, map to `TokenPublic` with
schema-on-read defaults.  Read-only: the store is returned unchanged. -/
def list_tokens (store : Store) (limit : Int) (only_active : Bool)
    (now : Timestamp) : List TokenPublic × Store :=
  let query : TokenDoc → Bool := fun d => if only_active then activeQuery now d else true
  let docs := ((store.filter query).insertionSort docBefore).take (max 1 (min limit 500)).toNat
  (docs.map tokenPublicOfDoc, store)

/-- Handler of the single-token GET endpoint (lines 174-191): `find_one({"code": code})`,
404 if absent, else the public view with schema-on-read defaults. -/
def get_token (store : Store) (code : String) : Except ApiError TokenPublic :=
  match store.find? (fun d => d.code == code) with
  | none => .error .notFound
  | some d => .ok (tokenPublicOfDoc d)

/-! ## Redemption (`src/main.py` lines 194-236) -/

/-- The `$set` document of the redemption update (lines 215-222). -/
def redeemUpdateDoc (d : TokenDoc) (client_id : String) (now : Timestamp) : TokenDoc :=
  { d with
    redeemed := some true
    redeemed_by := some client_id
    redeemed_at := some now
    updated_at := some now }

/-- Model of `update_one({"_id": tid}, ...)`: rewrite the first document whose `_id`
matches, leave the rest alone. -/
def updateFirstById (tid : Nat) (f : TokenDoc → TokenDoc) : Store → Store
  | [] => []
  | d :: ds => if d.id == tid then f d :: ds else d :: updateFirstById tid f ds

/-- Model of `find_one({"_id": tid})`. -/
def findById (store : Store) (tid : Nat) : Option TokenDoc :=
  store.find? fun d => d.id == tid

/-- The read-and-check phase of `redeem_token` (lines 199-212): one
`find_one` round trip followed by in-process checks.  `doc.get("redeemed")`
is truthy iff the field is present and `true`; the expiry check is
`expires_at <= now`. -/
def redeemCheck (store : Store) (code : String) (now : Timestamp) :
    Except ApiError TokenDoc :=
  match store.find? (fun d => d.code == code) with
  | none => .error .notFound
  | some doc =>
    if doc.redeemed.getD false then .error .alreadyRedeemed
    else
      match doc.expires_at with
      | some e => if e ≤ now then .error .expired else .ok doc
      | none => .ok doc

/-- The write phase of `redeem_token` (lines 214-236): an **unconditional**
`update_one` keyed only on `_id` (no `redeemed: false` condition), then a
re-fetch by `_id` serialized back to the caller. -/
def redeemWrite (store : Store) (doc : TokenDoc) (client_id : String)
    (now : Timestamp) : Option TokenPublic × Store :=
  let store' := updateFirstById doc.id (fun d => redeemUpdateDoc d client_id now) store
  match findById store' doc.id with
  | some updated => (some (tokenPublicOfDoc updated), store')
  | none => (none, store')

/-- Handler of `POST /api/tokens/redeem` (lines 194-236): the check phase then, on
success, the write phase. -/
def redeem_token (store : Store) (code client_id : String) (now : Timestamp) :
    Except ApiError TokenPublic × Store :=
  match redeemCheck store code now with
  | .error e => (.error e, store)
  | .ok doc =>
    match redeemWrite store doc client_id now with
    | (some p, store') => (.ok p, store')
    | (none, store') => (.error .readbackMissing, store')

/-! ## Helper lemmas -/

theorem candidateCode_zero (L : Nat) (pfx : Option String) (choice : Nat → Fin 36)
    (pos : Nat) :
    candidateCode L pfx choice pos 0 =
      withPfx pfx (_generate_code (fun j => choice (pos + j)) L) := by
  unfold candidateCode
  congr 2
  funext j
  congr 1
  ring

theorem candidateCode_shift (L : Nat) (pfx : Option String) (choice : Nat → Fin 36)
    (pos i : Nat) :
    candidateCode L pfx choice (pos + L) i = candidateCode L pfx choice pos (i + 1) := by
  unfold candidateCode
  congr 2
  funext j
  congr 1
  ring

theorem ensureUniqueAux_error (store : Store) (L : Nat) (pfx : Option String)
    (choice : Nat → Fin 36) :
    ∀ fuel pos e, ensureUniqueAux store L pfx choice pos fuel = .error e →
      e = .uniqueCodeExhausted := by
  intro fuel
  induction fuel with
  | zero =>
    intro pos e h
    simp only [ensureUniqueAux] at h
    cases h
    rfl
  | succ f ih =>
    intro pos e h
    simp only [ensureUniqueAux] at h
    by_cases hc : codeExists store (withPfx pfx (_generate_code (fun j => choice (pos + j)) L))
    · rw [if_pos hc] at h
      exact ih (pos + L) e h
    · rw [if_neg hc] at h
      cases h

theorem ensureUniqueAux_ok_fresh (store : Store) (L : Nat) (pfx : Option String)
    (choice : Nat → Fin 36) :
    ∀ fuel pos code pos', ensureUniqueAux store L pfx choice pos fuel = .ok (code, pos') →
      codeExists store code = false := by
  intro fuel
  induction fuel with
  | zero =>
    intro pos code pos' h
    simp only [ensureUniqueAux] at h
    cases h
  | succ f ih =>
    intro pos code pos' h
    simp only [ensureUniqueAux] at h
    by_cases hc : codeExists store (withPfx pfx (_generate_code (fun j => choice (pos + j)) L))
    · rw [if_pos hc] at h
      exact ih (pos + L) code pos' h
    · rw [if_neg hc] at h
      cases h
      simpa using hc

theorem ensureUniqueAux_exhaust (store : Store) (L : Nat) (pfx : Option String)
    (choice : Nat → Fin 36) :
    ∀ fuel pos,
      (∀ i < fuel, codeExists store (candidateCode L pfx choice pos i) = true) →
      ensureUniqueAux store L pfx choice pos fuel = .error .uniqueCodeExhausted := by
  intro fuel
  induction fuel with
  | zero => intro pos _; rfl
  | succ f ih =>
    intro pos hall
    have h0 : codeExists store (withPfx pfx (_generate_code (fun j => choice (pos + j)) L)) = true := by
      rw [← candidateCode_zero]
      exact hall 0 (Nat.succ_pos f)
    simp only [ensureUniqueAux, h0, if_pos]
    exact ih (pos + L) fun i hi => by
      rw [candidateCode_shift]
      exact hall (i + 1) (Nat.succ_lt_succ hi)

theorem ensureUniqueAux_ok_of_fresh (store : Store) (L : Nat) (pfx : Option String)
    (choice : Nat → Fin 36) :
    ∀ fuel pos i, i < fuel →
      codeExists store (candidateCode L pfx choice pos i) = false →
      ∃ k < fuel,
        ensureUniqueAux store L pfx choice pos fuel =
            .ok (candidateCode L pfx choice pos k, pos + (k + 1) * L) ∧
          codeExists store (candidateCode L pfx choice pos k) = false ∧
          ∀ m < k, codeExists store (candidateCode L pfx choice pos m) = true := by
  intro fuel
  induction fuel with
  | zero => intro pos i hi; omega
  | succ f ih =>
    intro pos i hi hfresh
    by_cases h0 : codeExists store (candidateCode L pfx choice pos 0) = true
    · rcases i with _ | i'
      · rw [hfresh] at h0; cases h0
      · have hfresh' : codeExists store (candidateCode L pfx choice (pos + L) i') = false := by
          rw [candidateCode_shift]; exact hfresh
        obtain ⟨k', hk', heq, hkfresh, hmin⟩ :=
          ih (pos + L) i' (Nat.lt_of_succ_lt_succ hi) hfresh'
        refine ⟨k' + 1, Nat.succ_lt_succ hk', ?_, ?_, ?_⟩
        · have hstep : ensureUniqueAux store L pfx choice pos (f + 1) =
              ensureUniqueAux store L pfx choice (pos + L) f := by
            simp only [ensureUniqueAux]
            rw [← candidateCode_zero, if_pos h0]
          rw [hstep, heq, candidateCode_shift]
          congr 2
          ring
        · rw [← candidateCode_shift]; exact hkfresh
        · intro m hm
          rcases m with _ | m'
          · exact h0
          · rw [← candidateCode_shift]
            exact hmin m' (Nat.lt_of_succ_lt_succ hm)
    · refine ⟨0, Nat.succ_pos f, ?_, by simpa using h0, fun m hm => by omega⟩
      simp only [ensureUniqueAux]
      rw [← candidateCode_zero, if_neg h0]
      rw [candidateCode_zero]
      congr 2
      ring

theorem codeExists_iff (store : Store) (c : String) :
    codeExists store c = true ↔ ∃ d ∈ store, d.code = c := by
  unfold codeExists
  rw [List.find?_isSome]
  constructor
  · rintro ⟨d, hd, hc⟩
    exact ⟨d, hd, by simpa using hc⟩
  · rintro ⟨d, hd, hc⟩
    exact ⟨d, hd, by simpa using hc⟩

theorem codeExists_append_left (s t : Store) (c : String)
    (h : codeExists s c = true) : codeExists (s ++ t) c = true := by
  rw [codeExists_iff] at h ⊢
  obtain ⟨d, hd, hc⟩ := h
  exact ⟨d, List.mem_append_left t hd, hc⟩

/-- The shape of a document persisted by the issuance loop: payload data,
`redeemed=False`, no redeemer fields, and the server timestamps set by
`create_document`. -/
def freshDocShape (payload : GenerateTokensRequest) (now : Timestamp) (d : TokenDoc) : Prop :=
  d.value = some payload.value ∧ d.currency = some payload.currency ∧
    d.purpose = payload.purpose ∧ d.expires_at = payload.expires_at ∧
    d.redeemed = some false ∧ d.redeemed_by = none ∧ d.redeemed_at = none ∧
    d.created_at = some now ∧ d.updated_at = some now

theorem generateLoop_extends (payload : GenerateTokensRequest) (choice : Nat → Fin 36)
    (now : Timestamp) :
    ∀ n st pos, ∃ ext, (generateLoop payload choice now n st pos).2 = st ++ ext ∧
      ∀ d ∈ ext, freshDocShape payload now d := by
  intro n
  induction n with
  | zero =>
    intro st pos
    exact ⟨[], by simp [generateLoop], by simp⟩
  | succ n ih =>
    intro st pos
    rcases he : _ensure_unique_code st payload.length payload.pfx choice pos with e | cp
    · exact ⟨[], by simp [generateLoop, he], by simp⟩
    · rcases cp with ⟨code, pos'⟩
      obtain ⟨ext', hext', hshape'⟩ :=
        ih ((create_document st ⟨0, code, some payload.value, some payload.currency,
          payload.purpose, payload.expires_at, some false, none, none, none, none⟩ now).2) pos'
      refine ⟨(create_document st ⟨0, code, some payload.value, some payload.currency,
        payload.purpose, payload.expires_at, some false, none, none, none, none⟩ now).1 :: ext',
        ?_, ?_⟩
      · simp only [generateLoop, he]
        rcases hrec : generateLoop payload choice now n
            ((create_document st ⟨0, code, some payload.value, some payload.currency,
              payload.purpose, payload.expires_at, some false, none, none, none, none⟩ now).2)
            pos' with ⟨r, s''⟩
        rw [hrec] at hext'
        rcases r with e | rest <;> simp [create_document] at hext' ⊢ <;> simp [hext']
      · intro d hd
        rcases List.mem_cons.mp hd with hd | hd
        · subst hd
          simp [create_document, freshDocShape]
        · exact hshape' d hd

theorem generateLoop_error_shape (payload : GenerateTokensRequest) (choice : Nat → Fin 36)
    (now : Timestamp) :
    ∀ n st pos e s', generateLoop payload choice now n st pos = (.error e, s') →
      e = .uniqueCodeExhausted ∧
        ∃ ext, s' = st ++ ext ∧ ext.length < n ∧ ∀ d ∈ ext, freshDocShape payload now d := by
  intro n
  induction n with
  | zero =>
    intro st pos e s' h
    simp only [generateLoop] at h
    cases h
  | succ n ih =>
    intro st pos e s' h
    simp only [generateLoop] at h
    rcases he : _ensure_unique_code st payload.length payload.pfx choice pos with e' | cp
    · rw [he] at h
      simp at h
      obtain ⟨he', hs'⟩ := h
      refine ⟨?_, [], by simp [hs'], Nat.succ_pos n, by simp⟩
      rw [← he']
      exact ensureUniqueAux_error st payload.length payload.pfx choice 10 pos e' he
    · rcases cp with ⟨code, pos'⟩
      rw [he] at h
      simp only at h
      rcases hrec : generateLoop payload choice now n
          ((create_document st ⟨0, code, some payload.value, some payload.currency,
            payload.purpose, payload.expires_at, some false, none, none, none, none⟩ now).2)
          pos' with ⟨r, s''⟩
      rw [hrec] at h
      rcases r with e'' | rest
      · simp at h
        obtain ⟨hee, hss⟩ := h
        obtain ⟨hexh, ext', hs'', hlen, hshape⟩ := ih _ pos' e'' s'' hrec
        subst hee hss
        refine ⟨hexh, (create_document st ⟨0, code, some payload.value, some payload.currency,
          payload.purpose, payload.expires_at, some false, none, none, none, none⟩ now).1 :: ext',
          ?_, by simpa using Nat.succ_lt_succ hlen, ?_⟩
        · rw [hs'']
          simp [create_document]
        · intro d hd
          rcases List.mem_cons.mp hd with hd | hd
          · subst hd
            simp [create_document, freshDocShape]
          · exact hshape d hd
      · simp at h

theorem generateLoop_ok_spec (payload : GenerateTokensRequest) (choice : Nat → Fin 36)
    (now : Timestamp) :
    ∀ n st pos created s',
      generateLoop payload choice now n st pos = (.ok created, s') →
      created.length = n ∧
        (∀ t ∈ created, t.redeemed = false) ∧
        (∀ t ∈ created, ∃ d ∈ s', tokenPublicOfDoc d = t) ∧
        (created.map TokenPublic.code).Nodup ∧
        (∀ t ∈ created, codeExists st t.code = false) ∧
        ∃ ext, s' = st ++ ext := by
  intro n
  induction n with
  | zero =>
    intro st pos created s' h
    simp only [generateLoop] at h
    obtain ⟨hc, hs⟩ := Prod.mk.injEq .. ▸ h
    cases hc
    refine ⟨rfl, by simp, by simp, by simp, by simp, [], by simp [hs]⟩
  | succ n ih =>
    intro st pos created s' h
    simp only [generateLoop] at h
    rcases he : _ensure_unique_code st payload.length payload.pfx choice pos with e' | cp
    · rw [he] at h
      simp at h
    · rcases cp with ⟨code, pos'⟩
      rw [he] at h
      simp only at h
      rcases hrec : generateLoop payload choice now n
          ((create_document st ⟨0, code, some payload.value, some payload.currency,
            payload.purpose, payload.expires_at, some false, none, none, none, none⟩ now).2)
          pos' with ⟨r, s''⟩
      rw [hrec] at h
      rcases r with e'' | rest
      · simp at h
      · simp only [Prod.mk.injEq, Except.ok.injEq] at h
        obtain ⟨hcreated, hss⟩ := h
        subst hss
        obtain ⟨hlen, hred, hpers, hnodup, hfresh, ext, hext⟩ := ih _ pos' rest _ hrec
        set stored := (create_document st ⟨0, code, some payload.value, some payload.currency,
          payload.purpose, payload.expires_at, some false, none, none, none, none⟩ now).1 with hstored
        have hst1 : (create_document st ⟨0, code, some payload.value, some payload.currency,
            payload.purpose, payload.expires_at, some false, none, none, none, none⟩ now).2 =
            st ++ [stored] := by
          simp [create_document, hstored]
        have hstoredcode : stored.code = code := by simp [create_document, hstored]
        have hcode1 : codeExists (st ++ [stored]) code = true := by
          rw [codeExists_iff]
          exact ⟨stored, List.mem_append_right st (by simp), hstoredcode⟩
        subst hcreated
        refine ⟨by simp [hlen], ?_, ?_, ?_, ?_, ?_⟩
        · intro t ht
          rcases List.mem_cons.mp ht with ht | ht
          · subst ht
            simp [tokenPublicOfDoc, create_document, hstored]
          · exact hred t ht
        · intro t ht
          rcases List.mem_cons.mp ht with ht | ht
          · subst ht
            refine ⟨stored, ?_, rfl⟩
            rw [hst1] at hext
            rw [hext]
            exact List.mem_append_left ext (List.mem_append_right st (by simp))
          · exact hpers t ht
        · simp only [List.map_cons, List.nodup_cons]
          refine ⟨?_, hnodup⟩
          intro hmem
          obtain ⟨t, ht, htc⟩ := List.mem_map.mp hmem
          have : codeExists (st ++ [stored]) t.code = false := by
            rw [← hst1]
            exact hfresh t ht
          rw [htc] at this
          have : codeExists (st ++ [stored]) (tokenPublicOfDoc stored).code = true := by
            have : (tokenPublicOfDoc stored).code = code := hstoredcode
            rw [this]
            exact hcode1
          simp_all
        · intro t ht
          rcases List.mem_cons.mp ht with ht | ht
          · subst ht
            have : (tokenPublicOfDoc stored).code = code := hstoredcode
            rw [this]
            exact ensureUniqueAux_ok_fresh st payload.length payload.pfx choice 10 pos code pos' he
          · have hf1 : codeExists (st ++ [stored]) t.code = false := by
              rw [← hst1]
              exact hfresh t ht
            rcases hcf : codeExists st t.code with _ | _
            · rfl
            · have := codeExists_append_left st [stored] t.code hcf
              simp_all
        · rw [hst1] at hext
          exact ⟨[stored] ++ ext, by simp [hext]⟩

theorem mem_updateFirstById (tid : Nat) (f : TokenDoc → TokenDoc) :
    ∀ s x, x ∈ updateFirstById tid f s → x ∈ s ∨ ∃ y ∈ s, y.id = tid ∧ x = f y := by
  intro s
  induction s with
  | nil => intro x hx; cases hx
  | cons h t ih =>
    intro x hx
    by_cases hc : (h.id == tid) = true
    · simp only [updateFirstById, if_pos hc] at hx
      rcases List.mem_cons.mp hx with hx | hx
      · exact Or.inr ⟨h, List.mem_cons_self h t, by simpa using hc, hx⟩
      · exact Or.inl (List.mem_cons_of_mem h hx)
    · simp only [updateFirstById, if_neg hc] at hx
      rcases List.mem_cons.mp hx with hx | hx
      · exact Or.inl (hx ▸ List.mem_cons_self h t)
      · rcases ih x hx with hx' | ⟨y, hy, hyid, hxy⟩
        · exact Or.inl (List.mem_cons_of_mem h hx')
        · exact Or.inr ⟨y, List.mem_cons_of_mem h hy, hyid, hxy⟩

theorem findById_updateFirstById (f : TokenDoc → TokenDoc)
    (hf : ∀ x, (f x).id = x.id) :
    ∀ (s : Store) (d : TokenDoc), (s.map TokenDoc.id).Nodup → d ∈ s →
      findById (updateFirstById d.id f s) d.id = some (f d) := by
  intro s
  induction s with
  | nil => intro d _ hd; cases hd
  | cons h t ih =>
    intro d hids hd
    rw [List.map_cons] at hids
    obtain ⟨hnotin, htail⟩ := List.nodup_cons.mp hids
    by_cases hc : (h.id == d.id) = true
    · have hid : h.id = d.id := by simpa using hc
      have hhd : h = d := by
        rcases List.mem_cons.mp hd with hd' | hd'
        · exact hd'.symm
        · exact absurd (hid ▸ List.mem_map.mpr ⟨d, hd', rfl⟩) hnotin
      simp only [updateFirstById, if_pos hc, findById]
      rw [List.find?_cons_of_pos]
      · rw [hhd]
      · simp [hf, hid]
    · have hd' : d ∈ t := by
        rcases List.mem_cons.mp hd with hd' | hd'
        · subst hd'
          simp at hc
        · exact hd'
      simp only [updateFirstById, if_neg hc, findById]
      rw [List.find?_cons_of_neg]
      · exact ih d htail hd'
      · simpa using hc

theorem redeemCheck_ok_of (s : Store) (code : String) (now : Timestamp) (d : TokenDoc)
    (hfind : s.find? (fun x => x.code == code) = some d)
    (hred : d.redeemed.getD false = false)
    (hexp : ∀ e, d.expires_at = some e → now < e) :
    redeemCheck s code now = .ok d := by
  unfold redeemCheck
  rw [hfind]
  simp only [hred]
  rcases hde : d.expires_at with _ | e
  · simp
  · have hlt := hexp e hde
    have hnle : ¬ e ≤ now := not_le.mpr hlt
    simp [if_neg hnle]

theorem redeem_token_success (s : Store) (code cid : String) (now : Timestamp) (d : TokenDoc)
    (hids : (s.map TokenDoc.id).Nodup)
    (hfind : s.find? (fun x => x.code == code) = some d)
    (hred : d.redeemed.getD false = false)
    (hexp : ∀ e, d.expires_at = some e → now < e) :
    redeem_token s code cid now =
      (.ok (tokenPublicOfDoc (redeemUpdateDoc d cid now)),
        updateFirstById d.id (fun x => redeemUpdateDoc x cid now) s) := by
  have hck := redeemCheck_ok_of s code now d hfind hred hexp
  have hfb := findById_updateFirstById (fun x => redeemUpdateDoc x cid now)
    (fun x => rfl) s d hids (List.mem_of_find?_eq_some hfind)
  simp only [redeem_token, hck, redeemWrite, hfb]

theorem redeem_token_notFound (s : Store) (code cid : String) (now : Timestamp)
    (hfind : s.find? (fun x => x.code == code) = none) :
    redeem_token s code cid now = (.error .notFound, s) := by
  have : redeemCheck s code now = .error .notFound := by
    unfold redeemCheck
    rw [hfind]
  simp [redeem_token, this]

theorem redeem_token_already (s : Store) (code cid : String) (now : Timestamp) (d : TokenDoc)
    (hfind : s.find? (fun x => x.code == code) = some d)
    (hred : d.redeemed.getD false = true) :
    redeem_token s code cid now = (.error .alreadyRedeemed, s) := by
  have : redeemCheck s code now = .error .alreadyRedeemed := by
    unfold redeemCheck
    rw [hfind]
    simp [hred]
  simp [redeem_token, this]

theorem redeem_token_expired_of (s : Store) (code cid : String) (now : Timestamp)
    (d : TokenDoc) (e : Timestamp)
    (hfind : s.find? (fun x => x.code == code) = some d)
    (hred : d.redeemed.getD false = false)
    (hexp : d.expires_at = some e) (hle : e ≤ now) :
    redeem_token s code cid now = (.error .expired, s) := by
  have : redeemCheck s code now = .error .expired := by
    unfold redeemCheck
    rw [hfind]
    simp [hred, hexp, hle]
  simp [redeem_token, this]

/-- The store produced by a redemption call: either untouched (on any
failure of the check phase) or with the first `_id`-match rewritten by the
`$set` of lines 215-222. -/
theorem redeem_token_store_cases (s : Store) (code cid : String) (now : Timestamp) :
    (redeem_token s code cid now).2 = s ∨
      ∃ doc : TokenDoc, (redeem_token s code cid now).2 =
        updateFirstById doc.id (fun x => redeemUpdateDoc x cid now) s := by
  rcases hck : redeemCheck s code now with e | doc
  · left
    simp [redeem_token, hck]
  · right
    refine ⟨doc, ?_⟩
    simp only [redeem_token, hck, redeemWrite]
    rcases hfb : findById (updateFirstById doc.id (fun d => redeemUpdateDoc d cid now) s)
        doc.id with _ | u <;> simp [hfb]

/-- The per-document invariant of the spec's data model, as an executable
check: `redeemed` false (or absent) means no redeemer fields; `redeemed`
true means both redeemer fields present with `redeemed_at ≥ created_at`
(vacuous when `created_at` is absent). -/
def docInvB (d : TokenDoc) : Bool :=
  if d.redeemed.getD false then
    d.redeemed_by.isSome &&
      (match d.redeemed_at, d.created_at with
       | some ra, some ca => decide (ca ≤ ra)
       | some _, none => true
       | none, _ => false)
  else
    (d.redeemed_by == none) && (d.redeemed_at == none)

/-- The document was created at or before the instant `now` (the physical
monotone-clock assumption: a redemption happens after the creation). -/
def createdBefore (now : Timestamp) (d : TokenDoc) : Bool :=
  match d.created_at with
  | some ca => decide (ca ≤ now)
  | none => true

/-- Every token a `list` call returns is the schema-on-read view of some
stored document, satisfying the `only_active` query when that flag is set. -/
theorem list_tokens_mem_src (store : Store) (limit : Int) (oa : Bool) (now : Timestamp)
    (p : TokenPublic) (hp : p ∈ (list_tokens store limit oa now).1) :
    ∃ d ∈ store, p = tokenPublicOfDoc d ∧ (oa = true → activeQuery now d = true) := by
  simp only [list_tokens] at hp
  obtain ⟨d, hd, hpd⟩ := List.mem_map.mp hp
  have hd1 : d ∈ (store.filter fun x =>
      if oa then activeQuery now x else true).insertionSort docBefore :=
    List.take_subset _ _ hd
  have hd2 : d ∈ store.filter (fun x => if oa then activeQuery now x else true) :=
    (List.perm_insertionSort docBefore _).mem_iff.mp hd1
  have hd3 := List.mem_filter.mp hd2
  refine ⟨d, hd3.1, hpd.symm, ?_⟩
  intro hoa
  have h4 := hd3.2
  rw [hoa] at h4
  simpa using h4

/-! ## Concrete documents used to instantiate the theorems -/

/-- An unredeemed token with no expiry. -/
def demoFresh : TokenDoc :=
  { id := 3, code := "FRESH1", value := some 5, currency := some "USD", purpose := none,
    expires_at := none, redeemed := some false, redeemed_by := none, redeemed_at := none,
    created_at := some 0, updated_at := some 0 }

/-- An already-redeemed token. -/
def demoRedeemed : TokenDoc :=
  { id := 4, code := "USED01", value := some 5, currency := some "USD", purpose := none,
    expires_at := none, redeemed := some true, redeemed_by := some "z", redeemed_at := some 2,
    created_at := some 0, updated_at := some 2 }

/-- An unredeemed token that expires at time 100. -/
def demoExpiring : TokenDoc :=
  { id := 5, code := "EXP001", value := some 5, currency := some "USD", purpose := none,
    expires_at := some 100, redeemed := some false, redeemed_by := none, redeemed_at := none,
    created_at := some 0, updated_at := some 0 }

/-! ## The claims -/

/-- C1: a redemption request either fails with "not found" (no token with
that code), "already redeemed" (`redeemed` truthy), or "expired"
(`expires_at` set and at or before now) — each failure leaving the store
unchanged, so a second attempt on an already-redeemed code fails the same
way — or else it sets `redeemed=true`, `redeemed_by=client_id`,
`redeemed_at=now`, `updated_at=now` on the stored record and returns the
updated record. -/
theorem redeem_token_contract (s : Store) (code cid : String) (now : Timestamp)
    (hids : (s.map TokenDoc.id).Nodup) :
    (s.find? (fun x => x.code == code) = none →
        redeem_token s code cid now = (.error .notFound, s)) ∧
      (∀ d, s.find? (fun x => x.code == code) = some d →
        d.redeemed.getD false = true →
          redeem_token s code cid now = (.error .alreadyRedeemed, s) ∧
            redeem_token (redeem_token s code cid now).2 code cid now =
              (.error .alreadyRedeemed, s)) ∧
      (∀ d e, s.find? (fun x => x.code == code) = some d →
        d.redeemed.getD false = false → d.expires_at = some e → e ≤ now →
          redeem_token s code cid now = (.error .expired, s)) ∧
      (∀ d, s.find? (fun x => x.code == code) = some d →
        d.redeemed.getD false = false →
        (∀ e, d.expires_at = some e → now < e) →
          redeem_token s code cid now =
              (.ok (tokenPublicOfDoc (redeemUpdateDoc d cid now)),
                updateFirstById d.id (fun x => redeemUpdateDoc x cid now) s) ∧
            (tokenPublicOfDoc (redeemUpdateDoc d cid now)).redeemed = true ∧
            (tokenPublicOfDoc (redeemUpdateDoc d cid now)).redeemed_by = some cid ∧
            (tokenPublicOfDoc (redeemUpdateDoc d cid now)).redeemed_at = some now ∧
            (redeemUpdateDoc d cid now).updated_at = some now) := by
  refine ⟨?_, ?_, ?_, ?_⟩
  · intro hfind
    exact redeem_token_notFound s code cid now hfind
  · intro d hfind hred
    have h1 := redeem_token_already s code cid now d hfind hred
    refine ⟨h1, ?_⟩
    rw [h1]
    exact h1
  · intro d e hfind hred hexp hle
    exact redeem_token_expired_of s code cid now d e hfind hred hexp hle
  · intro d hfind hred hexp
    exact ⟨redeem_token_success s code cid now d hids hfind hred hexp, rfl, rfl, rfl, rfl⟩

/-- Witness for C1: the success path on a store holding `demoFresh` and
`demoRedeemed`, and the double-failure path on the already-redeemed code. -/
theorem redeem_token_contract_witness :
    (redeem_token [demoFresh, demoRedeemed] "FRESH1" "abc" 7 =
        (.ok (tokenPublicOfDoc (redeemUpdateDoc demoFresh "abc" 7)),
          updateFirstById demoFresh.id (fun x => redeemUpdateDoc x "abc" 7)
            [demoFresh, demoRedeemed]) ∧
        (tokenPublicOfDoc (redeemUpdateDoc demoFresh "abc" 7)).redeemed = true ∧
        (tokenPublicOfDoc (redeemUpdateDoc demoFresh "abc" 7)).redeemed_by = some "abc" ∧
        (tokenPublicOfDoc (redeemUpdateDoc demoFresh "abc" 7)).redeemed_at = some 7 ∧
        (redeemUpdateDoc demoFresh "abc" 7).updated_at = some 7) ∧
      (redeem_token [demoFresh, demoRedeemed] "USED01" "abc" 7 =
          (.error .alreadyRedeemed, [demoFresh, demoRedeemed]) ∧
        redeem_token (redeem_token [demoFresh, demoRedeemed] "USED01" "abc" 7).2
            "USED01" "abc" 7 =
          (.error .alreadyRedeemed, [demoFresh, demoRedeemed])) := by
  have h := redeem_token_contract [demoFresh, demoRedeemed] "FRESH1" "abc" 7 (by decide)
  have h' := redeem_token_contract [demoFresh, demoRedeemed] "USED01" "abc" 7 (by decide)
  exact ⟨h.2.2.2 demoFresh rfl rfl (fun e he => by cases he),
    h'.2.1 demoRedeemed rfl rfl⟩

/-- C3: with `expires_at = e` set on an unredeemed token, redemption at
`now = e` fails as expired, redemption at any `now ≥ e` fails as expired,
and at any `now < e` (e.g. one microsecond before) the expiry check passes:
the comparison is less-than-or-equal, not strict less-than. -/
theorem redeem_expiry_boundary (s : Store) (code cid : String) (d : TokenDoc) (e : Timestamp)
    (hfind : s.find? (fun x => x.code == code) = some d)
    (hred : d.redeemed.getD false = false)
    (hexp : d.expires_at = some e) :
    (redeem_token s code cid e).1 = .error .expired ∧
      (∀ now, e ≤ now → (redeem_token s code cid now).1 = .error .expired) ∧
      (∀ now, now < e → redeemCheck s code now = .ok d) := by
  refine ⟨?_, ?_, ?_⟩
  · rw [redeem_token_expired_of s code cid e d e hfind hred hexp (le_refl e)]
  · intro now hle
    rw [redeem_token_expired_of s code cid now d e hfind hred hexp hle]
  · intro now hlt
    exact redeemCheck_ok_of s code now d hfind hred
      (fun e' he' => by rw [hexp] at he'; cases he'; exact hlt)

/-- Witness for C3: the boundary on `demoExpiring` (expiry 100): redeeming
at 100 is expired, at 99 the check passes. -/
theorem redeem_expiry_boundary_witness :
    (redeem_token [demoExpiring] "EXP001" "abc" 100).1 = .error .expired ∧
      redeemCheck [demoExpiring] "EXP001" 99 = .ok demoExpiring := by
  have h := redeem_expiry_boundary [demoExpiring] "EXP001" "abc" demoExpiring 100
    rfl rfl rfl
  exact ⟨h.1, h.2.2 99 (by decide)⟩

/-- C2 fails on the code: the redemption check and write are separate store
round trips (`find_one` at line 199, `update_one` at line 223, keyed only
on `_id` with an unconditional `$set`), not one atomic unit.  Under the
interleaving "A checks, B checks, A writes, B writes" of two concurrent
attempts on the same unexpired, unredeemed code, BOTH attempts pass the
checks and BOTH return a success record (`redeemed=true`), the second
overwriting the first redeemer — not "exactly one succeeds and the other
fails with already redeemed". -/
theorem concurrent_redeem_both_succeed :
    redeemCheck [demoFresh] "FRESH1" 10 = .ok demoFresh ∧
      redeemCheck [demoFresh] "FRESH1" 11 = .ok demoFresh ∧
      (redeemWrite [demoFresh] demoFresh "alice" 10).1 =
        some (tokenPublicOfDoc (redeemUpdateDoc demoFresh "alice" 10)) ∧
      (redeemWrite (redeemWrite [demoFresh] demoFresh "alice" 10).2
          demoFresh "bob" 11).1 =
        some (tokenPublicOfDoc
          (redeemUpdateDoc (redeemUpdateDoc demoFresh "alice" 10) "bob" 11)) ∧
      (tokenPublicOfDoc (redeemUpdateDoc demoFresh "alice" 10)).redeemed = true ∧
      (tokenPublicOfDoc
          (redeemUpdateDoc (redeemUpdateDoc demoFresh "alice" 10) "bob" 11)).redeemed = true ∧
      (tokenPublicOfDoc (redeemUpdateDoc demoFresh "alice" 10)).redeemed_by = some "alice" ∧
      (tokenPublicOfDoc
          (redeemUpdateDoc (redeemUpdateDoc demoFresh "alice" 10) "bob" 11)).redeemed_by =
        some "bob" :=
  ⟨rfl, rfl, rfl, rfl, rfl, rfl, rfl, rfl⟩

/-- C4: whenever a generation request with `count` in [1,500] returns
normally, it returns exactly `count` records, with pairwise-distinct codes,
each `redeemed=false`, and each one the view of a document persisted in the
resulting store. -/
theorem generate_tokens_contract (s : Store) (payload : GenerateTokensRequest)
    (choice : Nat → Fin 36) (now : Timestamp) (created : List TokenPublic) (s' : Store)
    (hcount : 1 ≤ payload.count ∧ payload.count ≤ 500)
    (hok : generate_tokens s payload choice now = (.ok created, s')) :
    created.length = payload.count ∧
      (created.map TokenPublic.code).Nodup ∧
      (∀ t ∈ created, t.redeemed = false) ∧
      (∀ t ∈ created, ∃ d ∈ s', tokenPublicOfDoc d = t) := by
  obtain ⟨hlen, hred, hpers, hnodup, _, _⟩ :=
    generateLoop_ok_spec payload choice now payload.count s 0 created s' hok
  exact ⟨hlen, hnodup, hred, hpers⟩

/-- A valid request for two 6-character tokens. -/
def wGenPayload : GenerateTokensRequest :=
  { count := 2, value := 1, currency := "USD", purpose := none, expires_at := none,
    length := 6, pfx := none }

/-- An oracle whose draws change every 6 positions, so consecutive
candidate codes differ. -/
def wChoice : Nat → Fin 36 := fun n => ⟨(n / 6) % 36, Nat.mod_lt _ (by omega)⟩

/-- An oracle that always draws index 0 (the letter A), so every candidate
code collides with an earlier identical one. -/
def constChoice : Nat → Fin 36 := fun _ => ⟨0, by omega⟩

/-- The two records `generate_tokens [] wGenPayload wChoice 0` returns. -/
def wGenCreated : List TokenPublic :=
  [{ code := "AAAAAA", value := 1, currency := "USD", purpose := none, expires_at := none,
     redeemed := false, redeemed_by := none, redeemed_at := none, created_at := some 0 },
   { code := "BBBBBB", value := 1, currency := "USD", purpose := none, expires_at := none,
     redeemed := false, redeemed_by := none, redeemed_at := none, created_at := some 0 }]

/-- The store `generate_tokens [] wGenPayload wChoice 0` leaves behind. -/
def wGenStore : Store :=
  [{ id := 0, code := "AAAAAA", value := some 1, currency := some "USD", purpose := none,
     expires_at := none, redeemed := some false, redeemed_by := none, redeemed_at := none,
     created_at := some 0, updated_at := some 0 },
   { id := 1, code := "BBBBBB", value := some 1, currency := some "USD", purpose := none,
     expires_at := none, redeemed := some false, redeemed_by := none, redeemed_at := none,
     created_at := some 0, updated_at := some 0 }]

/-- Witness for C4: the concrete two-token run returns two records with
distinct codes, both unredeemed, both persisted. -/
theorem generate_tokens_contract_witness :
    wGenCreated.length = 2 ∧
      (wGenCreated.map TokenPublic.code).Nodup ∧
      wGenCreated.all (fun t => !t.redeemed) = true ∧
      wGenCreated.all (fun t => (wGenStore.map tokenPublicOfDoc).contains t) = true := by
  have h := generate_tokens_contract [] wGenPayload wChoice 0 wGenCreated wGenStore
    ⟨by decide, by decide⟩ rfl
  refine ⟨h.1, h.2.1, ?_, ?_⟩
  · rw [List.all_eq_true]
    intro t ht
    simpa using h.2.2.1 t ht
  · rw [List.all_eq_true]
    intro t ht
    obtain ⟨d, hd, hdt⟩ := h.2.2.2 t ht
    rw [List.contains_iff_exists_mem_beq]
    exact ⟨t, List.mem_map.mpr ⟨d, hd, hdt⟩, by simp⟩

/-- C5: single-token code generation tests up to 10 candidates against the
existing records, regenerating on collision: if some candidate among the 10
does not collide, it returns the first non-colliding candidate (a code not
present in the store); if all 10 collide, `_ensure_unique_code` raises the
500 "could not generate a unique code" error, and a generation request
whose first token hits this case fails as a whole with that error, leaving
the store unchanged. -/
theorem ensure_unique_code_contract (st : Store) (L : Nat) (pfx : Option String)
    (choice : Nat → Fin 36) (pos : Nat) :
    ((∃ i < 10, codeExists st (candidateCode L pfx choice pos i) = false) →
      ∃ k < 10, _ensure_unique_code st L pfx choice pos =
          .ok (candidateCode L pfx choice pos k, pos + (k + 1) * L) ∧
        codeExists st (candidateCode L pfx choice pos k) = false ∧
        ∀ m < k, codeExists st (candidateCode L pfx choice pos m) = true) ∧
      ((∀ i < 10, codeExists st (candidateCode L pfx choice pos i) = true) →
        _ensure_unique_code st L pfx choice pos = .error .uniqueCodeExhausted) ∧
      (∀ (payload : GenerateTokensRequest) (now : Timestamp),
        payload.length = L → payload.pfx = pfx → 1 ≤ payload.count →
        (∀ i < 10, codeExists st (candidateCode L pfx choice 0 i) = true) →
        generate_tokens st payload choice now = (.error .uniqueCodeExhausted, st)) := by
  refine ⟨?_, ?_, ?_⟩
  · rintro ⟨i, hi, hfresh⟩
    exact ensureUniqueAux_ok_of_fresh st L pfx choice 10 pos i hi hfresh
  · intro hall
    exact ensureUniqueAux_exhaust st L pfx choice 10 pos hall
  · intro payload now hL hpfx hcount hall
    rcases hn : payload.count with _ | n
    · omega
    · have herr : _ensure_unique_code st payload.length payload.pfx choice 0 =
          .error .uniqueCodeExhausted := by
        rw [hL, hpfx]
        exact ensureUniqueAux_exhaust st L pfx choice 10 0 hall
      simp only [generate_tokens, hn, generateLoop, herr]

/-- Witness for C5: against a store already holding `AAAAAA`, the constant
oracle makes all 10 candidates collide and the whole two-token request
fails with the exhaustion error, store unchanged; against the same store,
`wChoice` finds a fresh candidate. -/
theorem ensure_unique_code_contract_witness :
    _ensure_unique_code
        [{ id := 0, code := "AAAAAA", value := some 1, currency := some "USD",
           purpose := none, expires_at := none, redeemed := some false,
           redeemed_by := none, redeemed_at := none, created_at := some 0,
           updated_at := some 0 }] 6 none constChoice 0 = .error .uniqueCodeExhausted ∧
      generate_tokens
          [{ id := 0, code := "AAAAAA", value := some 1, currency := some "USD",
             purpose := none, expires_at := none, redeemed := some false,
             redeemed_by := none, redeemed_at := none, created_at := some 0,
             updated_at := some 0 }] wGenPayload constChoice 0 =
        (.error .uniqueCodeExhausted,
          [{ id := 0, code := "AAAAAA", value := some 1, currency := some "USD",
             purpose := none, expires_at := none, redeemed := some false,
             redeemed_by := none, redeemed_at := none, created_at := some 0,
             updated_at := some 0 }]) := by
  have h := ensure_unique_code_contract
    [{ id := 0, code := "AAAAAA", value := some 1, currency := some "USD",
       purpose := none, expires_at := none, redeemed := some false,
       redeemed_by := none, redeemed_at := none, created_at := some 0,
       updated_at := some 0 }] 6 none constChoice 0
  exact ⟨h.2.1 (by decide), h.2.2 wGenPayload 0 rfl rfl (by decide) (by decide)⟩

/-- C6: a generated code is exactly `length` draws from the 36-character
alphabet A-Z0-9; a prefix (e.g. "PROMO-" with `length=6`) is prepended
verbatim and not counted in `length`, so the full code is the prefix's
characters followed by `length` alphabet characters. -/
theorem generated_code_shape (choice : Nat → Fin 36) (L : Nat) (p : String) :
    (_generate_code choice L).length = L ∧
      (∀ c ∈ (_generate_code choice L).data, c ∈ alphabet) ∧
      (withPfx (some p) (_generate_code choice L)).data =
        p.data ++ (_generate_code choice L).data ∧
      (withPfx (some p) (_generate_code choice L)).length = p.length + L := by
  have hlen : (_generate_code choice L).length = L := by
    simp [_generate_code, String.length]
  refine ⟨hlen, ?_, ?_, ?_⟩
  · intro c hc
    simp only [_generate_code, List.mem_map] at hc
    obtain ⟨i, _, hi⟩ := hc
    rw [← hi]
    exact List.mem_iff_get.mpr ⟨_, rfl⟩
  · simp [withPfx]
  · simp only [withPfx, String.length_append, hlen]

/-- C7: both mutating operations preserve the data-model invariant: a
record with `redeemed` false (or absent) has no `redeemed_by`/`redeemed_at`,
and a record with `redeemed=true` has both set, with the redemption
timestamp at or after the creation timestamp — assuming every stored record
was created at or before the redemption instant (the clock only moves
forward). -/
theorem operations_preserve_invariant (s : Store) (payload : GenerateTokensRequest)
    (choice : Nat → Fin 36) (now1 : Timestamp) (code cid : String) (now2 : Timestamp)
    (hinv : ∀ d ∈ s, docInvB d = true)
    (hclock : ∀ d ∈ s, createdBefore now2 d = true) :
    (∀ d ∈ (generate_tokens s payload choice now1).2, docInvB d = true) ∧
      (∀ d ∈ (redeem_token s code cid now2).2, docInvB d = true) := by
  constructor
  · obtain ⟨ext, hext, hshape⟩ := generateLoop_extends payload choice now1 payload.count s 0
    intro d hd
    simp only [generate_tokens] at hd
    rw [hext] at hd
    rcases List.mem_append.mp hd with hd | hd
    · exact hinv d hd
    · obtain ⟨_, _, _, _, hr, hby, hat, _, _⟩ := hshape d hd
      simp [docInvB, hr, hby, hat]
  · rcases redeem_token_store_cases s code cid now2 with hcase | ⟨doc, hcase⟩
    · intro d hd
      rw [hcase] at hd
      exact hinv d hd
    · intro d hd
      rw [hcase] at hd
      rcases mem_updateFirstById doc.id (fun x => redeemUpdateDoc x cid now2) s d hd with
        hd' | ⟨y, hy, _, hdy⟩
      · exact hinv d hd'
      · subst hdy
        have hcb := hclock y hy
        rcases hyc : y.created_at with _ | ca
        · simp [docInvB, redeemUpdateDoc, hyc]
        · have hca : ca ≤ now2 := by
            simpa [createdBefore, hyc] using hcb
          simp [docInvB, redeemUpdateDoc, hyc, hca]

/-- Witness for C7: the invariant holds on the store left by a concrete
generation call and on the store left by a concrete redemption call. -/
theorem operations_preserve_invariant_witness :
    (generate_tokens [demoFresh] wGenPayload wChoice 0).2.all docInvB = true ∧
      (redeem_token [demoFresh] "FRESH1" "abc" 9).2.all docInvB = true := by
  have h := operations_preserve_invariant [demoFresh] wGenPayload wChoice 0
    "FRESH1" "abc" 9 (by decide) (by decide)
  exact ⟨List.all_eq_true.mpr fun d hd => h.1 d hd,
    List.all_eq_true.mpr fun d hd => h.2 d hd⟩

/-- C8: a list call returns the store unchanged (no writes) and at most
`max(1, min(limit, 500))` records (default `limit` is 100 at the HTTP
layer), ordered by `created_at` descending; with `only_active` every
returned record comes from a stored document with `redeemed` equal to false
and no expiry or an expiry strictly after now, and (absent truncation)
every such document is returned. -/
theorem list_tokens_contract (store : Store) (limit : Int) (oa : Bool) (now : Timestamp) :
    (list_tokens store limit oa now).2 = store ∧
      (list_tokens store limit oa now).1.length ≤ (max 1 (min limit 500)).toNat ∧
      List.Pairwise (fun p q : TokenPublic => keyLe q.created_at p.created_at = true)
        (list_tokens store limit oa now).1 ∧
      (∀ p ∈ (list_tokens store limit oa now).1, ∃ d ∈ store,
        p = tokenPublicOfDoc d ∧ (oa = true → activeQuery now d = true)) ∧
      (oa = true →
        (store.filter (activeQuery now)).length ≤ (max 1 (min limit 500)).toNat →
        ∀ d ∈ store, activeQuery now d = true →
          tokenPublicOfDoc d ∈ (list_tokens store limit oa now).1) ∧
      (∀ d : TokenDoc, activeQuery now d = true ↔
        (d.redeemed = some false ∧
          (d.expires_at = none ∨ ∃ e, d.expires_at = some e ∧ now < e))) := by
  refine ⟨rfl, ?_, ?_, ?_, ?_, ?_⟩
  · simp only [list_tokens]
    rw [List.length_map]
    exact List.length_take_le _ _
  · have hs : List.Pairwise docBefore ((store.filter fun x =>
        if oa then activeQuery now x else true).insertionSort docBefore) :=
      List.sorted_insertionSort docBefore _
    have ht := hs.sublist (List.take_sublist (max 1 (min limit 500)).toNat _)
    simp only [list_tokens]
    rw [List.pairwise_map]
    exact ht
  · exact fun p hp => list_tokens_mem_src store limit oa now p hp
  · intro hoa hlen d hd hact
    subst hoa
    have hmemf : d ∈ store.filter (activeQuery now) := List.mem_filter.mpr ⟨hd, hact⟩
    have hlen2 : ((store.filter (activeQuery now)).insertionSort docBefore).length ≤
        (max 1 (min limit 500)).toNat := by
      rw [List.length_insertionSort]
      simpa using hlen
    have htake := List.take_of_length_le hlen2
    have hgoal : (list_tokens store limit true now).1 =
        (((store.filter (activeQuery now)).insertionSort docBefore).take
          (max 1 (min limit 500)).toNat).map tokenPublicOfDoc := by
      simp [list_tokens]
    rw [hgoal, htake]
    exact List.mem_map_of_mem tokenPublicOfDoc
      ((List.perm_insertionSort docBefore _).mem_iff.mpr hmemf)
  · intro d
    rcases hda : d.expires_at with _ | e <;> rcases hdr : d.redeemed with _ | b <;>
      simp [activeQuery, hda, hdr]

/-- C9: when unique-code generation exhausts its attempts midway through a
batch, the request fails with the exhaustion error but the store keeps the
documents created earlier in the same request (fewer than `count` of them):
the batch is not rolled back. -/
theorem generate_tokens_partial_persist (s : Store) (payload : GenerateTokensRequest)
    (choice : Nat → Fin 36) (now : Timestamp) (e : ApiError) (s' : Store)
    (herr : generate_tokens s payload choice now = (.error e, s')) :
    e = .uniqueCodeExhausted ∧
      ∃ ext, s' = s ++ ext ∧ ext.length < payload.count ∧
        ∀ d ∈ ext, freshDocShape payload now d := by
  have h := generateLoop_error_shape payload choice now payload.count s 0 e s' herr
  exact ⟨h.1, h.2⟩

/-- The single document persisted before the constant-oracle run of
`generate_tokens [] wGenPayload constChoice 0` fails on its second token. -/
def w9Doc : TokenDoc :=
  { id := 0, code := "AAAAAA", value := some 1, currency := some "USD", purpose := none,
    expires_at := none, redeemed := some false, redeemed_by := none, redeemed_at := none,
    created_at := some 0, updated_at := some 0 }

/-- Witness for C9: the two-token constant-oracle request fails with the
exhaustion error yet leaves the first token's document persisted. -/
theorem generate_tokens_partial_persist_witness :
    ApiError.uniqueCodeExhausted = ApiError.uniqueCodeExhausted ∧
      [w9Doc] = ([] : Store) ++ [w9Doc] ∧
      ([w9Doc] : Store).length < wGenPayload.count ∧
      freshDocShape wGenPayload 0 w9Doc := by
  have h := generate_tokens_partial_persist [] wGenPayload constChoice 0
    .uniqueCodeExhausted [w9Doc] rfl
  obtain ⟨h1, ext, hext, hlen, hshape⟩ := h
  have hx : ext = [w9Doc] := by
    rw [List.nil_append] at hext
    exact hext.symm
  subst hx
  exact ⟨h1, hext, hlen, hshape w9Doc (by simp)⟩

/-- C10: reads apply schema-on-read defaults: a found document with absent
`value`, `currency` or `redeemed` fields is returned by `get` as a record
with `value=0`, `currency="USD"`, `redeemed=false` (no failure), and every
record returned by `list` is the same defaulted view of a stored
document. -/
theorem read_defaults_contract (store : Store) (code : String) (d : TokenDoc)
    (hfind : store.find? (fun x => x.code == code) = some d)
    (hv : d.value = none) (hc : d.currency = none) (hr : d.redeemed = none) :
    (get_token store code = .ok (tokenPublicOfDoc d) ∧
      (tokenPublicOfDoc d).value = 0 ∧
      (tokenPublicOfDoc d).currency = "USD" ∧
      (tokenPublicOfDoc d).redeemed = false) ∧
      ∀ (limit : Int) (oa : Bool) (now : Timestamp) (p : TokenPublic),
        p ∈ (list_tokens store limit oa now).1 →
        ∃ x ∈ store, p = tokenPublicOfDoc x ∧
          p.value = x.value.getD 0 ∧ p.currency = x.currency.getD "USD" ∧
          p.redeemed = x.redeemed.getD false := by
  refine ⟨⟨?_, ?_, ?_, ?_⟩, ?_⟩
  · unfold get_token
    rw [hfind]
  · simp [tokenPublicOfDoc, hv]
  · simp [tokenPublicOfDoc, hc]
  · simp [tokenPublicOfDoc, hr]
  · intro limit oa now p hp
    obtain ⟨x, hx, hpx, _⟩ := list_tokens_mem_src store limit oa now p hp
    refine ⟨x, hx, hpx, ?_, ?_, ?_⟩ <;> rw [hpx] <;> rfl

/-- A legacy document lacking the `value`, `currency` and `redeemed`
fields. -/
def legacyDoc : TokenDoc :=
  { id := 9, code := "LEGACY", value := none, currency := none, purpose := none,
    expires_at := none, redeemed := none, redeemed_by := none, redeemed_at := none,
    created_at := none, updated_at := none }

/-- Witness for C10: `get` on the legacy document succeeds with the
defaults 0, "USD", false. -/
theorem read_defaults_contract_witness :
    get_token [legacyDoc] "LEGACY" = .ok (tokenPublicOfDoc legacyDoc) ∧
      (tokenPublicOfDoc legacyDoc).value = 0 ∧
      (tokenPublicOfDoc legacyDoc).currency = "USD" ∧
      (tokenPublicOfDoc legacyDoc).redeemed = false := by
  have h := read_defaults_contract [legacyDoc] "LEGACY" legacyDoc rfl rfl rfl rfl
  exact h.1
